import Mathlib

/-!
Verification of the AWS SES contact-form handler (`src/handler.py`).

Strings are modelled as `List Char`.  Python regular-expression operations
are compiled to deterministic scanners: every character class in the
patterns used by the source excludes the character required right after it,
so greedy/lazy matching never needs backtracking and each `re.sub` /
`re.match` is a straight-line scan.  ASCII case folding models Python
`str.lower` / `re.IGNORECASE` (the repository only handles ASCII payloads).
The JSON decoder and the SES client are external collaborators of the
handler; they are modelled as the parse outcome carried by the event and an
injected send outcome, while everything the repository itself implements is
translated directly.
-/

/-- Convert a string literal to the character-list representation. -/
def chars (s : String) : List Char := s.data

/-- Whitespace as matched by Python `\s` and stripped by `str.strip`
(ASCII range: space, tab, newline, carriage return, vertical tab, form feed). -/
def pyWs (c : Char) : Bool :=
  c == ' ' || c == '\t' || c == '\n' || c == '\r' || c == '\x0b' || c == '\x0c'

/-- ASCII lower-casing, modelling Python `str.lower` and `re.IGNORECASE`. -/
def asciiLower (c : Char) : Char :=
  if 65 ≤ c.toNat ∧ c.toNat ≤ 90 then Char.ofNat (c.toNat + 32) else c

theorem toNat_asciiLower_of_upper (c : Char) (h : 65 ≤ c.toNat ∧ c.toNat ≤ 90) :
    (asciiLower c).toNat = c.toNat + 32 := by
  unfold asciiLower
  rw [if_pos h]
  unfold Char.ofNat
  rw [dif_pos (show (c.toNat + 32).isValidChar from Or.inl (by omega))]
  rfl

/-- Lower-casing only moves code points into `[97, 122]`; hence a character
whose code point is outside that interval is a fixed point preimage. -/
theorem asciiLower_eq_of_not_lower {c t : Char} (h : asciiLower c = t)
    (ht : t.toNat < 97 ∨ 122 < t.toNat) : c = t := by
  by_cases hc : 65 ≤ c.toNat ∧ c.toNat ≤ 90
  · have := toNat_asciiLower_of_upper c hc
    rw [h] at this
    omega
  · unfold asciiLower at h
    rwa [if_neg hc] at h

/-- Case-insensitively match the literal pattern `p` at the head of `l`,
returning the remainder after the match. -/
def ciPrefixDrop : List Char → List Char → Option (List Char)
  | [], l => some l
  | _ :: _, [] => none
  | p :: ps, c :: cs =>
    if asciiLower c = asciiLower p then ciPrefixDrop ps cs else none

theorem ciPrefixDrop_length {p l r : List Char}
    (h : ciPrefixDrop p l = some r) : r.length + p.length = l.length := by
  induction p generalizing l with
  | nil => simp [ciPrefixDrop] at h; simp [h]
  | cons q ps ih =>
    cases l with
    | nil => simp [ciPrefixDrop] at h
    | cons c cs =>
      by_cases hac : asciiLower c = asciiLower q
      · simp only [ciPrefixDrop, if_pos hac] at h
        have := ih h
        simp [List.length_cons]
        omega
      · simp [ciPrefixDrop, if_neg hac] at h

theorem ciPrefixDrop_suffix {p l r : List Char}
    (h : ciPrefixDrop p l = some r) : r <:+ l := by
  induction p generalizing l with
  | nil => simp [ciPrefixDrop] at h; simp [h]
  | cons q ps ih =>
    cases l with
    | nil => simp [ciPrefixDrop] at h
    | cons c cs =>
      by_cases hac : asciiLower c = asciiLower q
      · simp only [ciPrefixDrop, if_pos hac] at h
        exact (ih h).trans (List.suffix_cons c cs)
      · simp [ciPrefixDrop, if_neg hac] at h

theorem ciPrefixDrop_mem {p l r : List Char}
    (h : ciPrefixDrop p l = some r) :
    ∀ q ∈ p, ∃ c ∈ l, asciiLower c = asciiLower q := by
  induction p generalizing l with
  | nil => intro q hq; simp at hq
  | cons q0 ps ih =>
    cases l with
    | nil => simp [ciPrefixDrop] at h
    | cons c cs =>
      by_cases hac : asciiLower c = asciiLower q0
      · simp only [ciPrefixDrop, if_pos hac] at h
        intro q hq
        rcases List.mem_cons.mp hq with hq | hq
        · exact ⟨c, List.mem_cons_self c cs, hq ▸ hac⟩
        · rcases ih h q hq with ⟨c1, hc1, hl⟩
          exact ⟨c1, List.mem_cons_of_mem c hc1, hl⟩
      · simp [ciPrefixDrop, if_neg hac] at h

/-- Open-tag matcher for `<\s*script[^>]*>` (IGNORECASE): `<`, optional
whitespace, the letters of `script`, any run of characters other than `>`,
then `>`.  Returns the remainder after the consumed tag. -/
def openTag (l : List Char) : Option (List Char) :=
  match l with
  | [] => none
  | c :: l1 =>
    if c = '<' then
      match ciPrefixDrop (chars "script") (l1.dropWhile pyWs) with
      | none => none
      | some l3 =>
        match l3.dropWhile (fun d => !(d == '>')) with
        | [] => none
        | d :: r => if d = '>' then some r else none
    else none

/-- Close-tag matcher for `<\s*/\s*script\s*>` (IGNORECASE). -/
def closeTag (l : List Char) : Option (List Char) :=
  match l with
  | [] => none
  | c :: l1 =>
    if c = '<' then
      match l1.dropWhile pyWs with
      | [] => none
      | d :: l3 =>
        if d = '/' then
          match ciPrefixDrop (chars "script") (l3.dropWhile pyWs) with
          | none => none
          | some l5 =>
            match l5.dropWhile pyWs with
            | [] => none
            | e :: r => if e = '>' then some r else none
        else none
    else none

theorem openTag_suffix {l r : List Char} (h : openTag l = some r) :
    r <:+ l ∧ r.length < l.length := by
  cases l with
  | nil => simp [openTag] at h
  | cons c l1 =>
    by_cases hc : c = '<'
    swap
    · simp [openTag, hc] at h
    subst hc
    cases hm : ciPrefixDrop (chars "script") (l1.dropWhile pyWs) with
    | none => simp [openTag, hm] at h
    | some l3 =>
      cases hd : l3.dropWhile (fun d => !(d == '>')) with
      | nil => simp [openTag, hm, hd] at h
      | cons d r0 =>
        by_cases hgt : d = '>'
        swap
        · simp [openTag, hm, hd, hgt] at h
        subst hgt
        simp only [openTag, hm, hd, if_pos rfl, Option.some.injEq, if_true] at h
        subst h
        have h1 : ('>' :: r0) <:+ l3 := hd ▸ List.dropWhile_suffix _
        have h2 : r0 <:+ l3 := (List.suffix_cons '>' r0).trans h1
        have h3 : l3 <:+ l1.dropWhile pyWs := ciPrefixDrop_suffix hm
        have h4 : r0 <:+ l1 := (h2.trans h3).trans (List.dropWhile_suffix pyWs)
        refine ⟨h4.trans (List.suffix_cons _ l1), ?_⟩
        have := h4.length_le
        simp [List.length_cons]
        omega

theorem closeTag_suffix {l r : List Char} (h : closeTag l = some r) :
    r <:+ l ∧ r.length < l.length := by
  cases l with
  | nil => simp [closeTag] at h
  | cons c l1 =>
    by_cases hc : c = '<'
    swap
    · simp [closeTag, hc] at h
    subst hc
    cases hw : l1.dropWhile pyWs with
    | nil => simp [closeTag, hw] at h
    | cons d l3 =>
      by_cases hd : d = '/'
      swap
      · simp [closeTag, hw, hd] at h
      subst hd
      cases hm : ciPrefixDrop (chars "script") (l3.dropWhile pyWs) with
      | none => simp [closeTag, hw, hm] at h
      | some l5 =>
        cases hv : l5.dropWhile pyWs with
        | nil => simp [closeTag, hw, hm, hv] at h
        | cons e r0 =>
          by_cases he : e = '>'
          swap
          · simp [closeTag, hw, hm, hv, he] at h
          subst he
          simp only [closeTag, hw, hm, hv, if_pos rfl, Option.some.injEq,
            if_true] at h
          subst h
          have h1 : r0 <:+ l5 :=
            (List.suffix_cons '>' r0).trans (hv ▸ List.dropWhile_suffix pyWs)
          have h2 : l5 <:+ l3 :=
            (ciPrefixDrop_suffix hm).trans (List.dropWhile_suffix pyWs)
          have h3 : l3 <:+ l1 :=
            ((List.suffix_cons '/' l3).trans (hw ▸ List.dropWhile_suffix pyWs))
          have h4 : r0 <:+ l1 := (h1.trans h2).trans h3
          refine ⟨h4.trans (List.suffix_cons _ l1), ?_⟩
          have := h4.length_le
          simp [List.length_cons]
          omega

/-- Scan for the earliest position at which the close tag matches,
realising the lazy `.*?` (with DOTALL) between open and close tag. -/
def findClose : List Char → Option (List Char)
  | [] => none
  | c :: cs =>
    match closeTag (c :: cs) with
    | some r => some r
    | none => findClose cs

theorem findClose_suffix {l r : List Char} (h : findClose l = some r) :
    r <:+ l ∧ r.length < l.length := by
  induction l with
  | nil => simp [findClose] at h
  | cons c cs ih =>
    simp only [findClose] at h
    cases hm : closeTag (c :: cs) with
    | some r0 =>
      rw [hm] at h
      simp at h
      subst h
      exact closeTag_suffix hm
    | none =>
      rw [hm] at h
      simp only at h
      obtain ⟨h1, h2⟩ := ih h
      refine ⟨h1.trans (List.suffix_cons c cs), ?_⟩
      simp [List.length_cons]
      omega

/-- Attempt to match one whole script block
`<\s*script[^>]*>.*?<\s*/\s*script\s*>` at the head of `l`. -/
def tryScriptMatch (l : List Char) : Option (List Char) :=
  match openTag l with
  | some m => findClose m
  | none => none

theorem tryScriptMatch_suffix {l r : List Char} (h : tryScriptMatch l = some r) :
    r <:+ l ∧ r.length < l.length := by
  unfold tryScriptMatch at h
  cases hm : openTag l with
  | none => rw [hm] at h; simp at h
  | some m =>
    rw [hm] at h
    obtain ⟨s1, n1⟩ := openTag_suffix hm
    obtain ⟨s2, n2⟩ := findClose_suffix h
    exact ⟨s2.trans s1, n2.trans n1⟩

/-- Scanner loop for script-block removal.  The recursion jumps to the
remainder after each match, which is not a structural subterm, so the loop
is driven by a fuel argument; `tryScriptMatch` always consumes at least one
character (`tryScriptMatch_suffix`), hence fuel `l.length` never runs out
and the `0` fallback is unreachable. -/
def removeScriptBlocksGo : Nat → List Char → List Char
  | _, [] => []
  | 0, l => l
  | fuel + 1, c :: cs =>
    match tryScriptMatch (c :: cs) with
    | some rest => removeScriptBlocksGo fuel rest
    | none => c :: removeScriptBlocksGo fuel cs

/-- Model of `re.sub(r"<\s*script[^>]*>.*?<\s*/\s*script\s*>", "", s,
flags=IGNORECASE|DOTALL)`: scan left to right, delete each leftmost
non-overlapping match, and continue scanning after the deleted match. -/
def removeScriptBlocks (l : List Char) : List Char :=
  removeScriptBlocksGo l.length l

/-- Scanner loop for `javascript:` removal, fuel-driven like
`removeScriptBlocksGo`; a match consumes the 11 pattern characters. -/
def removeJavascriptGo : Nat → List Char → List Char
  | _, [] => []
  | 0, l => l
  | fuel + 1, c :: cs =>
    match ciPrefixDrop (chars "javascript:") (c :: cs) with
    | some rest => removeJavascriptGo fuel rest
    | none => c :: removeJavascriptGo fuel cs

/-- Model of `re.sub(r"javascript:", "", s, flags=IGNORECASE)`. -/
def removeJavascript (l : List Char) : List Char :=
  removeJavascriptGo l.length l

/-- Matcher for `on\w+\s*=` (IGNORECASE) at the head of `l`: the letters
`on`, at least one word character, optional whitespace, then `=`. -/
def onAttrMatch (l : List Char) : Option (List Char) :=
  match ciPrefixDrop (chars "on") l with
  | none => none
  | some l1 =>
    if (l1.takeWhile Char.isAlphanum).isEmpty then none
    else
      match (l1.dropWhile Char.isAlphanum).dropWhile pyWs with
      | [] => none
      | d :: r => if d = '=' then some r else none

theorem onAttrMatch_suffix {l r : List Char} (h : onAttrMatch l = some r) :
    r <:+ l ∧ r.length < l.length ∧ '=' ∈ l := by
  unfold onAttrMatch at h
  cases hm : ciPrefixDrop (chars "on") l with
  | none => rw [hm] at h; simp at h
  | some l1 =>
    rw [hm] at h
    by_cases hw : (l1.takeWhile Char.isAlphanum).isEmpty
    · simp [hw] at h
    simp only [hw, if_false, Bool.false_eq_true] at h
    cases hv : (l1.dropWhile Char.isAlphanum).dropWhile pyWs with
    | nil => rw [hv] at h; simp at h
    | cons d r0 =>
      rw [hv] at h
      by_cases hd : d = '='
      swap
      · simp [hd] at h
      subst hd
      simp only [if_pos rfl, Option.some.injEq, if_true] at h
      subst h
      have h1 : ('=' :: r0) <:+ l1 :=
        (hv ▸ List.dropWhile_suffix pyWs).trans (List.dropWhile_suffix _)
      have h2 : l1 <:+ l := ciPrefixDrop_suffix hm
      have h3 : ('=' :: r0) <:+ l := h1.trans h2
      have h4 := ciPrefixDrop_length hm
      have h5 : (chars "on").length = 2 := by decide
      refine ⟨(List.suffix_cons '=' r0).trans h3, ?_, h3.subset (by simp)⟩
      have h6 := h1.length_le
      simp only [List.length_cons] at h6
      omega

/-- Scanner loop for `on\w+\s*=` removal, fuel-driven like
`removeScriptBlocksGo`; a match consumes at least three characters. -/
def removeOnAttrGo : Nat → List Char → List Char
  | _, [] => []
  | 0, l => l
  | fuel + 1, c :: cs =>
    match onAttrMatch (c :: cs) with
    | some rest => removeOnAttrGo fuel rest
    | none => c :: removeOnAttrGo fuel cs

/-- Model of `re.sub(r"on\w+\s*=", "", s, flags=IGNORECASE)`. -/
def removeOnAttr (l : List Char) : List Char :=
  removeOnAttrGo l.length l

/-- Model of Python `str.replace` for a single-character needle `tgt`,
replacing each occurrence by `rep`. -/
def replaceChar (tgt : Char) (rep : List Char) : List Char → List Char
  | [] => []
  | c :: cs =>
    if c = tgt then rep ++ replaceChar tgt rep cs
    else c :: replaceChar tgt rep cs

/-- Model of Python `str.strip()` (with ASCII whitespace). -/
def pyStrip (l : List Char) : List Char :=
  ((l.dropWhile pyWs).reverse.dropWhile pyWs).reverse

/-- Model of `sanitize_input` (handler.py lines 26-56): remove script
blocks, then `javascript:` patterns, then `on\w+\s*=` patterns, then
HTML-encode the characters ampersand, `<`, `>` and double quote in that
order, and finally strip surrounding whitespace.  Empty input is returned
unchanged, per the `if not input_str` guard. -/
def sanitize_input (input_str : List Char) : List Char :=
  if input_str.isEmpty then []
  else
    pyStrip
      (replaceChar '"' (chars "&quot;")
        (replaceChar '>' (chars "&gt;")
          (replaceChar '<' (chars "&lt;")
            (replaceChar '&' (chars "&amp;")
              (removeOnAttr (removeJavascript (removeScriptBlocks input_str)))))))

/-- Character class `[^\s@]` of the email regular expression. -/
def classOkEmail (c : Char) : Bool := !pyWs c && !(c == '@')

/-- Whether a character strictly between the first and last position is a
dot: this is exactly when the tail `[^\s@]+\.[^\s@]+` of the email pattern
can split `r` as nonempty-part, dot, nonempty-part. -/
def hasInteriorDot (r : List Char) : Bool := ((r.drop 1).dropLast).contains '.'

/-- Compiled matcher for `re.match(r"^[^\s@]+@[^\s@]+\.[^\s@]+$", l)`:
a maximal nonempty run of `[^\s@]` characters, the `@`, and a remainder of
`[^\s@]` characters containing a dot that is neither its first nor its last
character.  (`[^\s@]+` cannot match `@`, so maximal munch is exact, and the
trailing `$` nuance about a final newline cannot arise because the matcher
is only applied to stripped strings.) -/
def emailRegexMatch (l : List Char) : Bool :=
  match l.dropWhile classOkEmail with
  | [] => false
  | c :: r =>
    c == '@' && !(l.takeWhile classOkEmail).isEmpty
      && r.all classOkEmail && hasInteriorDot r

/-- Model of `is_valid_email` (handler.py lines 59-85). -/
def is_valid_email (email : List Char) : Bool :=
  let e := (pyStrip (sanitize_input email)).map asciiLower
  if !emailRegexMatch e then false
  else if 254 < e.length then false
  else if 64 < (e.takeWhile (fun c => !(c == '@'))).length then false
  else if decide (chars "&lt;" <:+: e) || decide (chars "&gt;" <:+: e) then false
  else true

/-- Character class `[a-zA-Z\s\-\']` of the name regular expression. -/
def nameClass (c : Char) : Bool :=
  c.isAlpha || pyWs c || c == '-' || c == Char.ofNat 39

/-- Model of `is_valid_name` (handler.py lines 88-107). -/
def is_valid_name (name : List Char) : Bool :=
  let cleaned := if name.isEmpty then [] else pyStrip name
  if cleaned.isEmpty || cleaned.length < 2 then false
  else if 100 < cleaned.length then false
  else !cleaned.isEmpty && cleaned.all nameClass

/-- Character class `[\d\s\-\(\)\+]` of the phone regular expression. -/
def phoneClass (c : Char) : Bool :=
  c.isDigit || pyWs c || c == '-' || c == '(' || c == ')' || c == '+'

/-- Model of `is_valid_phone` (handler.py lines 110-135). -/
def is_valid_phone (phone : List Char) : Bool :=
  if phone.isEmpty || (pyStrip phone).isEmpty then true
  else
    let cleaned := pyStrip (sanitize_input phone)
    if !(!cleaned.isEmpty && cleaned.all phoneClass) then false
    else
      let digitsOnly := cleaned.filter Char.isDigit
      if digitsOnly.length < 7 || 15 < digitsOnly.length then false
      else true

/-- Model of `is_valid_message` (handler.py lines 138-155). -/
def is_valid_message (message : List Char) : Bool :=
  let cleaned := pyStrip (sanitize_input message)
  if cleaned.isEmpty || cleaned.length < 5 then false
  else if 5000 < cleaned.length then false
  else true

/-- Lowercase hexadecimal digit, as used by `json.dumps` in `\uXXXX`
escapes. -/
def hexDigit (n : Nat) : Char :=
  if n < 10 then Char.ofNat (48 + n) else Char.ofNat (87 + n)

/-- Escape one character the way `json.dumps` (default options,
`ensure_ascii=True`) escapes characters inside a JSON string literal.
Astral code points (whose escape uses a surrogate pair) are out of scope:
every message produced by the handler is printable ASCII. -/
def escapeChar (c : Char) : List Char :=
  if c = '"' then ['\\', '"']
  else if c = '\\' then ['\\', '\\']
  else if c = '\n' then ['\\', 'n']
  else if c = '\t' then ['\\', 't']
  else if c = '\r' then ['\\', 'r']
  else if c = '\x08' then ['\\', 'b']
  else if c = '\x0c' then ['\\', 'f']
  else if c.toNat < 32 then
    ['\\', 'u', '0', '0', hexDigit (c.toNat / 16), hexDigit (c.toNat % 16)]
  else if 127 ≤ c.toNat then
    ['\\', 'u', hexDigit (c.toNat / 4096 % 16), hexDigit (c.toNat / 256 % 16),
      hexDigit (c.toNat / 16 % 16), hexDigit (c.toNat % 16)]
  else [c]

/-- JSON string-literal escaping of a whole string. -/
def jsonEscape (l : List Char) : List Char := l.flatMap escapeChar

/-- Model of `json.dumps({"success": b, "message": m})`: Python 3.7+ dicts
keep insertion order and `json.dumps` uses `", "` and `": "` separators. -/
def jsonDumpsBody (success : Bool) (message : List Char) : List Char :=
  chars "\x7b\"success\": " ++ (if success then chars "true" else chars "false")
    ++ chars ", \"message\": \"" ++ jsonEscape message ++ chars "\"\x7d"

/-- An HTTP-style response dictionary as returned by the handler: status
code, headers, and an optional JSON body string (the CORS pre-flight
response carries no `body` key). -/
structure Response where
  statusCode : Nat
  headers : List (String × String)
  body : Option (List Char)
deriving DecidableEq, Repr

/-- Model of `error_response` (handler.py lines 158-176). -/
def error_response (status_code : Nat) (message : List Char) : Response :=
  { statusCode := status_code,
    headers := [("Access-Control-Allow-Origin", "*"),
                ("Content-Type", "application/json")],
    body := some (jsonDumpsBody false message) }

/-- Model of `success_response` (handler.py lines 179-196). -/
def success_response (message : List Char) : Response :=
  { statusCode := 200,
    headers := [("Access-Control-Allow-Origin", "*"),
                ("Content-Type", "application/json")],
    body := some (jsonDumpsBody true message) }

/-- Exceptions that can cross stage boundaries inside the handler and are
caught by its outermost `except Exception` clause. -/
inductive Exn
  | valueError (message : List Char)
  | typeError
  | otherError
deriving DecidableEq, Repr

/-- Model of `get_required_env_var` (handler.py lines 15-20); `env` is the
process environment (`os.getenv`), and both an unset variable and an empty
value fail the `if not value` test and raise `ValueError`. -/
def get_required_env_var (env : String → Option String) (name : String) :
    Except Exn (List Char) :=
  match env name with
  | none =>
    Except.error (Exn.valueError
      (chars name ++ chars " environment variable is required but not set"))
  | some v =>
    if v = "" then
      Except.error (Exn.valueError
        (chars name ++ chars " environment variable is required but not set"))
    else Except.ok (chars v)

/-- Outcome of `json.loads(event.get("body", "\x7b\x7d"))` followed by the
`isinstance(body, dict)` test.  The JSON decoder is an external library, so
the event carries its outcome: a JSON object with string field values, a
decodable non-object value, a `json.JSONDecodeError` (malformed text), or a
`TypeError` (`json.loads` applied to a non-string such as `None`). -/
inductive ParsedBody
  | obj (fields : List (String × List Char))
  | nonObj
  | decodeErr
  | typeErr
deriving DecidableEq, Repr

/-- An incoming Lambda proxy event: the HTTP method and the `body` key
(`none` when the key is absent, in which case the source falls back to the
literal `"\x7b\x7d"`, which decodes to the empty object). -/
structure Event where
  httpMethod : Option String
  body : Option ParsedBody
deriving DecidableEq, Repr

/-- Model of `body.get(key, "")` on the decoded JSON object. -/
def getField (fields : List (String × List Char)) (key : String) : List Char :=
  match fields.lookup key with
  | some v => v
  | none => []

/-- One invocation of `ses_client.send_email` with the arguments the
handler passed. -/
structure SendCall where
  source : List Char
  toAddresses : List (List Char)
  subject : List Char
  bodyText : List Char
deriving DecidableEq, Repr

/-- Behaviour of the external SES client on the (single) send call:
success, a `botocore` `ClientError` with an error code and message, or any
other exception. -/
inductive SendOutcome
  | ok
  | clientError (code : List Char) (message : List Char)
  | raiseOther
deriving DecidableEq, Repr

/-- The plaintext email body composed by the handler (the f-string at
handler.py lines 295-302), including its leading newline and trailing
newline plus eight spaces of indentation. -/
def email_body (name email phone message : List Char) : List Char :=
  chars "\nName: " ++ name ++ chars "\nEmail: " ++ email ++ chars "\nPhone: "
    ++ (if phone.isEmpty then chars "Not provided" else phone)
    ++ chars "\n\nMessage:\n" ++ message ++ chars "\n        "

/-- The configuration/send section of `lambda_handler` (lines 287-332),
entered once validation has passed, with the four sanitized field values.
Returns the try-block result together with the list of SES invocations
made; a `ClientError` is caught here (inner `except ClientError`), any
other send failure propagates as an exception. -/
def afterValidation (env : String → Option String) (send : SendOutcome)
    (name email phone message : List Char) :
    Except Exn Response × List SendCall :=
  match get_required_env_var env "AWS_REGION" with
  | Except.error e => (Except.error e, [])
  | Except.ok _ =>
    match get_required_env_var env "RECIPIENT_EMAIL" with
    | Except.error e => (Except.error e, [])
    | Except.ok recipient_email =>
      let call : SendCall :=
        { source := recipient_email,
          toAddresses := [recipient_email],
          subject := chars "New Contact Form Submission from " ++ name,
          bodyText := email_body name email phone message }
      match send with
      | SendOutcome.ok =>
        (Except.ok (success_response (chars "Thank you! Your message has been sent.")),
          [call])
      | SendOutcome.clientError code _ =>
        if code = chars "MessageRejected" then
          (Except.ok (error_response 400 (chars "Email address is not verified in SES")),
            [call])
        else
          (Except.ok (error_response 500 (chars "Failed to send email")), [call])
      | SendOutcome.raiseOther => (Except.error Exn.otherError, [call])

/-- The body of the outer `try` block of `lambda_handler` (lines 225-332):
parse the request body, sanitize and validate the four fields in order,
then run the configuration/send section.  `Except.error` values are the
exceptions that reach the outer `except Exception` handler. -/
def handlerTry (ev : Event) (env : String → Option String)
    (send : SendOutcome) : Except Exn Response × List SendCall :=
  let parsed : ParsedBody :=
    match ev.body with
    | none => ParsedBody.obj []
    | some p => p
  match parsed with
  | ParsedBody.typeErr => (Except.error Exn.typeError, [])
  | ParsedBody.decodeErr =>
    (Except.ok (error_response 400 (chars "Invalid JSON format")), [])
  | ParsedBody.nonObj =>
    (Except.ok (error_response 400 (chars "Request body must be a JSON object")), [])
  | ParsedBody.obj fields =>
    let name := sanitize_input (getField fields "name")
    let email := sanitize_input (getField fields "email")
    let phone := sanitize_input (getField fields "phone")
    let message := sanitize_input (getField fields "message")
    if name.isEmpty || !is_valid_name name then
      (Except.ok (error_response 400 (chars "Invalid name")), [])
    else if email.isEmpty || !is_valid_email email then
      (Except.ok (error_response 400 (chars "Invalid email")), [])
    else if !phone.isEmpty && !is_valid_phone phone then
      (Except.ok (error_response 400 (chars "Invalid phone number")), [])
    else if message.isEmpty || !is_valid_message message then
      (Except.ok (error_response 400 (chars "Invalid message (5-5000 characters)")), [])
    else
      afterValidation env send name email phone message

/-- The fixed CORS pre-flight response (handler.py lines 216-223): no
`Content-Type` header and no `body` key. -/
def optionsResponse : Response :=
  { statusCode := 200,
    headers := [("Access-Control-Allow-Origin", "*"),
                ("Access-Control-Allow-Methods", "POST, OPTIONS"),
                ("Access-Control-Allow-Headers", "Content-Type")],
    body := none }

/-- Model of `lambda_handler` (handler.py lines 199-340), paired with the
list of SES send invocations it performed.  `env` is the process
environment and `send` the injected behaviour of the external SES client. -/
def lambda_handler (ev : Event) (env : String → Option String)
    (send : SendOutcome) : Response × List SendCall :=
  if ev.httpMethod = some "OPTIONS" then (optionsResponse, [])
  else
    match handlerTry ev env send with
    | (Except.ok r, calls) => (r, calls)
    | (Except.error _, calls) =>
      (error_response 500 (chars "An unexpected error occurred"), calls)

/-- A `POST` event whose body decodes to a JSON object with the four
contact-form fields. -/
def mkPost (name email phone message : List Char) : Event :=
  { httpMethod := some "POST",
    body := some (ParsedBody.obj
      [("name", name), ("email", email), ("phone", phone), ("message", message)]) }

/-- The end-to-end example event of the specification: John Doe, no phone. -/
def johnDoeEvent : Event :=
  { httpMethod := some "POST",
    body := some (ParsedBody.obj
      [("name", chars "John Doe"), ("email", chars "john@example.com"),
       ("message", chars "This is a test message")]) }

theorem handlerTry_mkPost_validated (n e p m : List Char)
    (env : String → Option String) (send : SendOutcome)
    (h1 : ((sanitize_input n).isEmpty || !is_valid_name (sanitize_input n)) = false)
    (h2 : ((sanitize_input e).isEmpty || !is_valid_email (sanitize_input e)) = false)
    (h3 : (!(sanitize_input p).isEmpty && !is_valid_phone (sanitize_input p)) = false)
    (h4 : ((sanitize_input m).isEmpty
        || !is_valid_message (sanitize_input m)) = false) :
    handlerTry (mkPost n e p m) env send =
      afterValidation env send (sanitize_input n) (sanitize_input e)
        (sanitize_input p) (sanitize_input m) := by
  simp [handlerTry, mkPost, getField, List.lookup, h1, h2, h3, h4]

theorem afterValidation_config_ok (env : String → Option String)
    (send : SendOutcome) (region recipient : String)
    (hr : env "AWS_REGION" = some region) (hr2 : region ≠ "")
    (he : env "RECIPIENT_EMAIL" = some recipient) (he2 : recipient ≠ "")
    (name email phone message : List Char) :
    afterValidation env send name email phone message =
      ((match send with
        | SendOutcome.ok =>
          Except.ok (success_response (chars "Thank you! Your message has been sent."))
        | SendOutcome.clientError code _ =>
          if code = chars "MessageRejected" then
            Except.ok (error_response 400 (chars "Email address is not verified in SES"))
          else Except.ok (error_response 500 (chars "Failed to send email"))
        | SendOutcome.raiseOther => Except.error Exn.otherError),
       [{ source := chars recipient,
          toAddresses := [chars recipient],
          subject := chars "New Contact Form Submission from " ++ name,
          bodyText := email_body name email phone message }]) := by
  unfold afterValidation get_required_env_var
  rw [hr, he]
  simp only [if_neg hr2, if_neg he2]
  cases send with
  | ok => rfl
  | clientError code msg => by_cases hc : code = chars "MessageRejected" <;> simp [hc]
  | raiseOther => rfl

theorem afterValidation_config_missing (env : String → Option String)
    (send : SendOutcome) (name email phone message : List Char)
    (h : env "AWS_REGION" = none ∨ env "AWS_REGION" = some ""
      ∨ env "RECIPIENT_EMAIL" = none ∨ env "RECIPIENT_EMAIL" = some "") :
    ∃ msg, afterValidation env send name email phone message =
      (Except.error (Exn.valueError msg), []) := by
  unfold afterValidation get_required_env_var
  rcases h with h | h | h | h
  · rw [h]; exact ⟨_, rfl⟩
  · rw [h]; simp only [if_pos rfl]; exact ⟨_, rfl⟩
  · cases hra : env "AWS_REGION" with
    | none => exact ⟨_, rfl⟩
    | some region =>
      by_cases hre : region = ""
      · subst hre; simp only [if_pos rfl]; exact ⟨_, rfl⟩
      · simp only [if_neg hre]; rw [h]; exact ⟨_, rfl⟩
  · cases hra : env "AWS_REGION" with
    | none => exact ⟨_, rfl⟩
    | some region =>
      by_cases hre : region = ""
      · subst hre; simp only [if_pos rfl]; exact ⟨_, rfl⟩
      · simp only [if_neg hre]; rw [h]; simp only [if_pos rfl]; exact ⟨_, rfl⟩

/-- Every normally-returned (non-exception) response of the try block is
built by `error_response` with status 400 or 500, or by
`success_response`. -/
theorem handlerTry_ok_shape (ev : Event) (env : String → Option String)
    (send : SendOutcome) (r : Response) (calls : List SendCall)
    (h : handlerTry ev env send = (Except.ok r, calls)) :
    (∃ msg, r = error_response 400 msg) ∨ (∃ msg, r = error_response 500 msg)
      ∨ (∃ msg, r = success_response msg) := by
  unfold handlerTry at h
  cases hb : ev.body with
  | none =>
    rw [hb] at h
    simp only at h
    split at h
    · simp at h
      exact Or.inl ⟨_, h.1.symm⟩
    · rename_i hcond
      rw [show sanitize_input (getField [] "name") = [] from by decide] at hcond
      simp at hcond
  | some p =>
    rw [hb] at h
    cases p with
    | typeErr => simp at h
    | decodeErr => simp at h; exact Or.inl ⟨_, h.1.symm⟩
    | nonObj => simp at h; exact Or.inl ⟨_, h.1.symm⟩
    | obj fields =>
      simp only at h
      split at h
      · simp at h; exact Or.inl ⟨_, h.1.symm⟩
      split at h
      · simp at h; exact Or.inl ⟨_, h.1.symm⟩
      split at h
      · simp at h; exact Or.inl ⟨_, h.1.symm⟩
      split at h
      · simp at h; exact Or.inl ⟨_, h.1.symm⟩
      · unfold afterValidation at h
        split at h
        · simp at h
        split at h
        · simp at h
        split at h
        · simp at h
          exact Or.inr (Or.inr ⟨_, h.1.symm⟩)
        · split at h
          · simp at h
            exact Or.inl ⟨_, h.1.symm⟩
          · simp at h
            exact Or.inr (Or.inl ⟨_, h.1.symm⟩)
        · simp at h

theorem lambda_handler_eq_of_not_options (ev : Event)
    (env : String → Option String) (send : SendOutcome)
    (hm : ev.httpMethod ≠ some "OPTIONS") :
    lambda_handler ev env send =
      match handlerTry ev env send with
      | (Except.ok r, calls) => (r, calls)
      | (Except.error _, calls) =>
        (error_response 500 (chars "An unexpected error occurred"), calls) := by
  simp [lambda_handler, hm]

/-- Environment used by concrete witnesses: both configuration variables
present and non-empty. -/
def envFull : String → Option String :=
  fun nm =>
    if nm = "AWS_REGION" then some "us-east-1"
    else if nm = "RECIPIENT_EMAIL" then some "admin@example.com"
    else none

/-- Environment with the region variable unset (recipient present). -/
def envNoRegion : String → Option String :=
  fun nm => if nm = "RECIPIENT_EMAIL" then some "admin@example.com" else none

/-- Claim C10: a present `body` key holding a non-string value (such as
JSON null) makes `json.loads` raise `TypeError`, which only the outer
`except Exception` catches, so the handler answers 500 with the generic
message; malformed JSON text is caught as `JSONDecodeError` and answered
400 "Invalid JSON format"; and only an absent `body` key falls back to the
empty-object default and proceeds to field validation, failing with 400
"Invalid name". -/
theorem C10_null_body_typeerror (env : String → Option String)
    (send : SendOutcome) :
    lambda_handler { httpMethod := some "POST", body := some ParsedBody.typeErr }
        env send
      = (error_response 500 (chars "An unexpected error occurred"), [])
    ∧ lambda_handler { httpMethod := some "POST", body := some ParsedBody.decodeErr }
        env send
      = (error_response 400 (chars "Invalid JSON format"), [])
    ∧ lambda_handler { httpMethod := some "POST", body := none } env send
      = (error_response 400 (chars "Invalid name"), []) :=
  ⟨rfl, rfl, rfl⟩

/-- Claim C3, counterexample: with the region variable unset and a valid
submission, the body of the 500 response is the generic unexpected-error
message, and the string "Configuration error" appears nowhere in it. -/
theorem C3_counterexample :
    (lambda_handler johnDoeEvent envNoRegion SendOutcome.ok).1
      = error_response 500 (chars "An unexpected error occurred")
    ∧ ¬ chars "Configuration error" <:+:
        ((lambda_handler johnDoeEvent envNoRegion SendOutcome.ok).1.body.getD []) := by
  constructor
  · decide
  · decide

/-- Claim C5, counterexample: the CORS pre-flight response has no body and
no Content-Type header, so the claimed shape does not hold on the OPTIONS
path. -/
theorem C5_counterexample :
    (lambda_handler { httpMethod := some "OPTIONS", body := none }
        (fun _ => none) SendOutcome.ok).1.body = none
    ∧ ((lambda_handler { httpMethod := some "OPTIONS", body := none }
        (fun _ => none) SendOutcome.ok).1.headers.lookup "Content-Type") = none := by
  constructor
  · rfl
  · rfl

set_option maxRecDepth 10000 in
/-- Claim C1: for the John Doe event (name, email, message, no phone) with
both configuration values present and non-empty, the handler performs
exactly one SES send whose Source and sole destination are the configured
recipient, whose subject contains the sanitized name "John Doe", and whose
plaintext body embeds name, email, "Not provided" for the absent phone,
and the message; it returns 200 with success true and the fixed thank-you
message. -/
theorem C1_john_doe_success (env : String → Option String)
    (region recipient : String)
    (hr : env "AWS_REGION" = some region) (hr2 : region ≠ "")
    (he : env "RECIPIENT_EMAIL" = some recipient) (he2 : recipient ≠ "") :
    lambda_handler johnDoeEvent env SendOutcome.ok =
      (success_response (chars "Thank you! Your message has been sent."),
       [{ source := chars recipient,
          toAddresses := [chars recipient],
          subject := chars "New Contact Form Submission from John Doe",
          bodyText := email_body (chars "John Doe") (chars "john@example.com")
            [] (chars "This is a test message") }])
    ∧ chars "John Doe" <:+: chars "New Contact Form Submission from John Doe"
    ∧ chars "John Doe" <:+: email_body (chars "John Doe")
        (chars "john@example.com") [] (chars "This is a test message")
    ∧ chars "john@example.com" <:+: email_body (chars "John Doe")
        (chars "john@example.com") [] (chars "This is a test message")
    ∧ chars "Not provided" <:+: email_body (chars "John Doe")
        (chars "john@example.com") [] (chars "This is a test message")
    ∧ chars "This is a test message" <:+: email_body (chars "John Doe")
        (chars "john@example.com") [] (chars "This is a test message")
    ∧ (success_response (chars "Thank you! Your message has been sent.")).statusCode
        = 200 := by
  have hpost : handlerTry johnDoeEvent env SendOutcome.ok
      = afterValidation env SendOutcome.ok (chars "John Doe")
          (chars "john@example.com") [] (chars "This is a test message") := by
    have c1 : ((sanitize_input (chars "John Doe")).isEmpty
        || !is_valid_name (sanitize_input (chars "John Doe"))) = false := by decide
    have c2 : ((sanitize_input (chars "john@example.com")).isEmpty
        || !is_valid_email (sanitize_input (chars "john@example.com"))) = false := by
      decide
    have c4 : ((sanitize_input (chars "This is a test message")).isEmpty
        || !is_valid_message (sanitize_input (chars "This is a test message")))
        = false := by decide
    have s1 : sanitize_input (chars "John Doe") = chars "John Doe" := by decide
    have s2 : sanitize_input (chars "john@example.com")
        = chars "john@example.com" := by decide
    have s4 : sanitize_input (chars "This is a test message")
        = chars "This is a test message" := by decide
    have sp : sanitize_input ([] : List Char) = [] := by decide
    have v1 : is_valid_name (chars "John Doe") = true := by decide
    have v2 : is_valid_email (chars "john@example.com") = true := by decide
    have v4 : is_valid_message (chars "This is a test message") = true := by decide
    have n1 : chars "John Doe" ≠ [] := by decide
    have n2 : chars "john@example.com" ≠ [] := by decide
    have n4 : chars "This is a test message" ≠ [] := by decide
    simp [handlerTry, johnDoeEvent, getField, List.lookup, c1, c2, c4, s1, s2, s4,
      sp, v1, v2, v4, n1, n2, n4]
  rw [lambda_handler_eq_of_not_options johnDoeEvent env SendOutcome.ok (by decide),
    hpost, afterValidation_config_ok env SendOutcome.ok region recipient hr hr2 he he2]
  refine ⟨rfl, by decide, by decide, by decide, by decide, by decide, rfl⟩

set_option maxRecDepth 10000 in
/-- Claim C1, witness at a concrete environment. -/
theorem C1_witness :
    lambda_handler johnDoeEvent envFull SendOutcome.ok =
      (success_response (chars "Thank you! Your message has been sent."),
       [{ source := chars "admin@example.com",
          toAddresses := [chars "admin@example.com"],
          subject := chars "New Contact Form Submission from John Doe",
          bodyText := email_body (chars "John Doe") (chars "john@example.com")
            [] (chars "This is a test message") }]) :=
  (C1_john_doe_success envFull "us-east-1" "admin@example.com" rfl
    (by decide) rfl (by decide)).1

/-- Claim C2: when a submission that passed validation and configuration
hits a send failure with a `ClientError`, error code "MessageRejected"
yields a 400 response whose message mentions "verified", and any other
error code yields 500 "Failed to send email". -/
theorem C2_ses_error_mapping (n e p m : List Char)
    (env : String → Option String) (region recipient : String)
    (code msg : List Char)
    (h1 : ((sanitize_input n).isEmpty || !is_valid_name (sanitize_input n)) = false)
    (h2 : ((sanitize_input e).isEmpty || !is_valid_email (sanitize_input e)) = false)
    (h3 : (!(sanitize_input p).isEmpty && !is_valid_phone (sanitize_input p)) = false)
    (h4 : ((sanitize_input m).isEmpty
        || !is_valid_message (sanitize_input m)) = false)
    (hr : env "AWS_REGION" = some region) (hr2 : region ≠ "")
    (he : env "RECIPIENT_EMAIL" = some recipient) (he2 : recipient ≠ "") :
    (code = chars "MessageRejected" →
      (lambda_handler (mkPost n e p m) env (SendOutcome.clientError code msg)).1
        = error_response 400 (chars "Email address is not verified in SES")
      ∧ chars "verified" <:+: chars "Email address is not verified in SES")
    ∧ (code ≠ chars "MessageRejected" →
      (lambda_handler (mkPost n e p m) env (SendOutcome.clientError code msg)).1
        = error_response 500 (chars "Failed to send email")) := by
  rw [lambda_handler_eq_of_not_options _ env _ (by simp [mkPost]),
    handlerTry_mkPost_validated n e p m env _ h1 h2 h3 h4,
    afterValidation_config_ok env _ region recipient hr hr2 he he2]
  constructor
  · intro hc
    subst hc
    exact ⟨by simp, by decide⟩
  · intro hc
    simp [hc]

/-- Claim C2, witness: John Doe fields, concrete environment, both error
codes exercised through the theorem. -/
theorem C2_witness :
    (lambda_handler
        (mkPost (chars "John Doe") (chars "john@example.com") []
          (chars "This is a test message"))
        envFull
        (SendOutcome.clientError (chars "MessageRejected") (chars "nope"))).1
      = error_response 400 (chars "Email address is not verified in SES")
    ∧ (lambda_handler
        (mkPost (chars "John Doe") (chars "john@example.com") []
          (chars "This is a test message"))
        envFull
        (SendOutcome.clientError (chars "Throttling") (chars "slow"))).1
      = error_response 500 (chars "Failed to send email") :=
  ⟨((C2_ses_error_mapping (chars "John Doe") (chars "john@example.com") []
      (chars "This is a test message") envFull "us-east-1" "admin@example.com"
      (chars "MessageRejected") (chars "nope") (by decide) (by decide) (by decide)
      (by decide) rfl (by decide) rfl (by decide)).1 rfl).1,
   (C2_ses_error_mapping (chars "John Doe") (chars "john@example.com") []
      (chars "This is a test message") envFull "us-east-1" "admin@example.com"
      (chars "Throttling") (chars "slow") (by decide) (by decide) (by decide)
      (by decide) rfl (by decide) rfl (by decide)).2 (by decide)⟩

/-- Claim C3, amended: if either required configuration value is missing or
empty when read after validation passes, the handler returns status 500,
but the generic body message is "An unexpected error occurred" (produced by
the outer catch-all, not a dedicated "Configuration error" message), and
the environment-variable names never appear in the response body. -/
theorem C3_amended_config_error (n e p m : List Char)
    (env : String → Option String) (send : SendOutcome)
    (h1 : ((sanitize_input n).isEmpty || !is_valid_name (sanitize_input n)) = false)
    (h2 : ((sanitize_input e).isEmpty || !is_valid_email (sanitize_input e)) = false)
    (h3 : (!(sanitize_input p).isEmpty && !is_valid_phone (sanitize_input p)) = false)
    (h4 : ((sanitize_input m).isEmpty
        || !is_valid_message (sanitize_input m)) = false)
    (hmiss : env "AWS_REGION" = none ∨ env "AWS_REGION" = some ""
      ∨ env "RECIPIENT_EMAIL" = none ∨ env "RECIPIENT_EMAIL" = some "") :
    (lambda_handler (mkPost n e p m) env send).1
      = error_response 500 (chars "An unexpected error occurred")
    ∧ ¬ chars "AWS_REGION" <:+:
        jsonDumpsBody false (chars "An unexpected error occurred")
    ∧ ¬ chars "RECIPIENT_EMAIL" <:+:
        jsonDumpsBody false (chars "An unexpected error occurred") := by
  obtain ⟨msg, hmsg⟩ :=
    afterValidation_config_missing env send (sanitize_input n) (sanitize_input e)
      (sanitize_input p) (sanitize_input m) hmiss
  rw [lambda_handler_eq_of_not_options _ env _ (by simp [mkPost]),
    handlerTry_mkPost_validated n e p m env _ h1 h2 h3 h4, hmsg]
  exact ⟨rfl, by decide, by decide⟩

/-- Claim C3, witness: John Doe fields with the region variable unset. -/
theorem C3_witness :
    (lambda_handler
        (mkPost (chars "John Doe") (chars "john@example.com") []
          (chars "This is a test message"))
        envNoRegion SendOutcome.ok).1
      = error_response 500 (chars "An unexpected error occurred") :=
  (C3_amended_config_error (chars "John Doe") (chars "john@example.com") []
    (chars "This is a test message") envNoRegion SendOutcome.ok (by decide)
    (by decide) (by decide) (by decide) (Or.inl rfl)).1

/-- Claim C4: after the body parses as a JSON object the handler sanitizes
each field and validates in order name, email, phone, message,
short-circuiting with the specific 400 message of the first failing check;
when all pass, the sanitized values (not the raw ones) are the ones used to
compose the email subject and body. -/
theorem C4_validation_order (n e p m : List Char)
    (env : String → Option String) (send : SendOutcome) :
    (((sanitize_input n).isEmpty || !is_valid_name (sanitize_input n)) = true →
      lambda_handler (mkPost n e p m) env send
        = (error_response 400 (chars "Invalid name"), []))
    ∧ (((sanitize_input n).isEmpty || !is_valid_name (sanitize_input n)) = false →
      ((sanitize_input e).isEmpty || !is_valid_email (sanitize_input e)) = true →
      lambda_handler (mkPost n e p m) env send
        = (error_response 400 (chars "Invalid email"), []))
    ∧ (((sanitize_input n).isEmpty || !is_valid_name (sanitize_input n)) = false →
      ((sanitize_input e).isEmpty || !is_valid_email (sanitize_input e)) = false →
      (!(sanitize_input p).isEmpty && !is_valid_phone (sanitize_input p)) = true →
      lambda_handler (mkPost n e p m) env send
        = (error_response 400 (chars "Invalid phone number"), []))
    ∧ (((sanitize_input n).isEmpty || !is_valid_name (sanitize_input n)) = false →
      ((sanitize_input e).isEmpty || !is_valid_email (sanitize_input e)) = false →
      (!(sanitize_input p).isEmpty && !is_valid_phone (sanitize_input p)) = false →
      ((sanitize_input m).isEmpty || !is_valid_message (sanitize_input m)) = true →
      lambda_handler (mkPost n e p m) env send
        = (error_response 400 (chars "Invalid message (5-5000 characters)"), []))
    ∧ (((sanitize_input n).isEmpty || !is_valid_name (sanitize_input n)) = false →
      ((sanitize_input e).isEmpty || !is_valid_email (sanitize_input e)) = false →
      (!(sanitize_input p).isEmpty && !is_valid_phone (sanitize_input p)) = false →
      ((sanitize_input m).isEmpty || !is_valid_message (sanitize_input m)) = false →
      ∀ region recipient : String, env "AWS_REGION" = some region → region ≠ "" →
        env "RECIPIENT_EMAIL" = some recipient → recipient ≠ "" →
        (lambda_handler (mkPost n e p m) env send).2
          = [{ source := chars recipient,
               toAddresses := [chars recipient],
               subject := chars "New Contact Form Submission from "
                 ++ sanitize_input n,
               bodyText := email_body (sanitize_input n) (sanitize_input e)
                 (sanitize_input p) (sanitize_input m) }]) := by
  refine ⟨?_, ?_, ?_, ?_, ?_⟩
  · intro hn
    rw [lambda_handler_eq_of_not_options _ env _ (by simp [mkPost])]
    simp [handlerTry, mkPost, getField, List.lookup, hn]
  · intro hn he2
    rw [lambda_handler_eq_of_not_options _ env _ (by simp [mkPost])]
    simp [handlerTry, mkPost, getField, List.lookup, hn, he2]
  · intro hn he2 hp
    rw [lambda_handler_eq_of_not_options _ env _ (by simp [mkPost])]
    simp [handlerTry, mkPost, getField, List.lookup, hn, he2, hp]
  · intro hn he2 hp hm2
    rw [lambda_handler_eq_of_not_options _ env _ (by simp [mkPost])]
    simp [handlerTry, mkPost, getField, List.lookup, hn, he2, hp, hm2]
  · intro hn he2 hp hm2 region recipient hr hr2 hre hre2
    rw [lambda_handler_eq_of_not_options _ env _ (by simp [mkPost]),
      handlerTry_mkPost_validated n e p m env _ hn he2 hp hm2,
      afterValidation_config_ok env _ region recipient hr hr2 hre hre2]
    cases send with
    | ok => rfl
    | clientError code msg =>
      by_cases hc : code = chars "MessageRejected" <;> simp [hc]
    | raiseOther => rfl

set_option maxRecDepth 10000 in
/-- Claim C4, witness: a too-short name short-circuits with "Invalid name",
and a fully valid submission composes the email from the sanitized
fields. -/
theorem C4_witness :
    lambda_handler (mkPost (chars "J") (chars "john@example.com") []
        (chars "This is a test message")) envFull SendOutcome.ok
      = (error_response 400 (chars "Invalid name"), [])
    ∧ (lambda_handler (mkPost (chars "<script>x</script>John Doe")
        (chars "john@example.com") [] (chars "This is a test message"))
        envFull SendOutcome.ok).2
      = [{ source := chars "admin@example.com",
           toAddresses := [chars "admin@example.com"],
           subject := chars "New Contact Form Submission from "
             ++ sanitize_input (chars "<script>x</script>John Doe"),
           bodyText := email_body
             (sanitize_input (chars "<script>x</script>John Doe"))
             (sanitize_input (chars "john@example.com"))
             (sanitize_input ([] : List Char))
             (sanitize_input (chars "This is a test message")) }] :=
  ⟨(C4_validation_order (chars "J") (chars "john@example.com") []
      (chars "This is a test message") envFull SendOutcome.ok).1 (by decide),
   ((((C4_validation_order (chars "<script>x</script>John Doe")
      (chars "john@example.com") [] (chars "This is a test message"))
      envFull SendOutcome.ok).2.2.2.2 (by decide) (by decide) (by decide)
      (by decide)) "us-east-1" "admin@example.com" rfl (by decide) rfl
      (by decide))⟩

/-- Claim C5, amended: every response from an event whose method is not
OPTIONS has status-code/headers/body shape with the permissive CORS header,
the JSON content type, and a body that is the JSON encoding of a success
flag and a message; the OPTIONS pre-flight response instead carries the
pre-flight headers (allow-origin `*`, allow-methods `POST, OPTIONS`,
allow-headers `Content-Type`) and no body. -/
theorem C5_response_shape (ev : Event) (env : String → Option String)
    (send : SendOutcome) :
    (ev.httpMethod ≠ some "OPTIONS" →
      (lambda_handler ev env send).1.headers
        = [("Access-Control-Allow-Origin", "*"),
           ("Content-Type", "application/json")]
      ∧ ∃ b msg, (lambda_handler ev env send).1.body
          = some (jsonDumpsBody b msg))
    ∧ (ev.httpMethod = some "OPTIONS" →
      lambda_handler ev env send = (optionsResponse, [])) := by
  constructor
  · intro hm
    rw [lambda_handler_eq_of_not_options ev env send hm]
    rcases hres : handlerTry ev env send with ⟨res, calls⟩
    cases res with
    | error exn => exact ⟨rfl, false, _, rfl⟩
    | ok r =>
      rcases handlerTry_ok_shape ev env send r calls hres with
        ⟨msg, hmsg⟩ | ⟨msg, hmsg⟩ | ⟨msg, hmsg⟩ <;> subst hmsg
      · exact ⟨rfl, false, msg, rfl⟩
      · exact ⟨rfl, false, msg, rfl⟩
      · exact ⟨rfl, true, msg, rfl⟩
  · intro hm
    simp [lambda_handler, hm]

/-- Claim C5, witness: a POST event with an unparseable body still gets the
full CORS/JSON response shape. -/
theorem C5_witness :
    (lambda_handler { httpMethod := some "POST", body := some ParsedBody.decodeErr }
        envFull SendOutcome.ok).1.headers
      = [("Access-Control-Allow-Origin", "*"),
         ("Content-Type", "application/json")]
    ∧ ∃ b msg,
      (lambda_handler { httpMethod := some "POST", body := some ParsedBody.decodeErr }
          envFull SendOutcome.ok).1.body
        = some (jsonDumpsBody b msg) :=
  (C5_response_shape { httpMethod := some "POST", body := some ParsedBody.decodeErr }
    envFull SendOutcome.ok).1 (by decide)

/-- Claim C9: the handler is total on events: it always produces a response
with status 200, 400 or 500, and whenever the try-block ends in an
exception (on a non-pre-flight request), that exception is converted at the
handler boundary into the generic 500 response rather than propagating. -/
theorem C9_no_propagation (ev : Event) (env : String → Option String)
    (send : SendOutcome) :
    ((lambda_handler ev env send).1.statusCode = 200
      ∨ (lambda_handler ev env send).1.statusCode = 400
      ∨ (lambda_handler ev env send).1.statusCode = 500)
    ∧ (∀ exn calls, ev.httpMethod ≠ some "OPTIONS" →
        handlerTry ev env send = (Except.error exn, calls) →
        lambda_handler ev env send
          = (error_response 500 (chars "An unexpected error occurred"), calls)) := by
  constructor
  · by_cases hm : ev.httpMethod = some "OPTIONS"
    · left
      simp [lambda_handler, hm, optionsResponse]
    · rw [lambda_handler_eq_of_not_options ev env send hm]
      rcases hres : handlerTry ev env send with ⟨res, calls⟩
      cases res with
      | error exn => right; right; rfl
      | ok r =>
        rcases handlerTry_ok_shape ev env send r calls hres with
          ⟨msg, hmsg⟩ | ⟨msg, hmsg⟩ | ⟨msg, hmsg⟩ <;> subst hmsg
        · right; left; rfl
        · right; right; rfl
        · left; rfl
  · intro exn calls hm hres
    rw [lambda_handler_eq_of_not_options ev env send hm, hres]

/-- Claim C9, witness: the TypeError path is converted to the generic 500
response. -/
theorem C9_witness :
    lambda_handler { httpMethod := some "POST", body := some ParsedBody.typeErr }
        envFull SendOutcome.ok
      = (error_response 500 (chars "An unexpected error occurred"), []) :=
  (C9_no_propagation { httpMethod := some "POST", body := some ParsedBody.typeErr }
    envFull SendOutcome.ok).2 Exn.typeError [] (by decide) rfl

/-- Whether the script-block pattern matches somewhere in `s`, i.e. `s`
contains a script block in the sense of the sanitizer's first `re.sub`. -/
def containsScriptBlock : List Char → Bool
  | [] => false
  | c :: cs => (tryScriptMatch (c :: cs)).isSome || containsScriptBlock cs

theorem mem_replaceChar {a tgt : Char} {rep l : List Char}
    (h : a ∈ replaceChar tgt rep l) : a ∈ rep ∨ (a ∈ l ∧ a ≠ tgt) := by
  induction l with
  | nil => simp [replaceChar] at h
  | cons c cs ih =>
    unfold replaceChar at h
    by_cases hc : c = tgt
    · rw [if_pos hc] at h
      rcases List.mem_append.mp h with h | h
      · exact Or.inl h
      · rcases ih h with h | h
        · exact Or.inl h
        · exact Or.inr ⟨List.mem_cons_of_mem c h.1, h.2⟩
    · rw [if_neg hc] at h
      rcases List.mem_cons.mp h with h | h
      · subst h
        exact Or.inr ⟨List.mem_cons_self a cs, hc⟩
      · rcases ih h with h | h
        · exact Or.inl h
        · exact Or.inr ⟨List.mem_cons_of_mem c h.1, h.2⟩

theorem mem_pyStrip {a : Char} {l : List Char} (h : a ∈ pyStrip l) : a ∈ l := by
  unfold pyStrip at h
  rw [List.mem_reverse] at h
  have h1 := (List.dropWhile_suffix pyWs).subset h
  rw [List.mem_reverse] at h1
  exact (List.dropWhile_suffix pyWs).subset h1

/-- The HTML-encoding step replaces every `<` by `&lt;`, so no `<` survives
sanitization. -/
theorem not_lt_mem_sanitize (s : List Char) : '<' ∉ sanitize_input s := by
  unfold sanitize_input
  by_cases hs : s.isEmpty
  · simp [hs]
  · rw [if_neg hs]
    intro hmem
    have h1 := mem_pyStrip hmem
    rcases mem_replaceChar h1 with h | h
    · revert h; decide
    · rcases mem_replaceChar h.1 with h2 | h2
      · revert h2; decide
      · rcases mem_replaceChar h2.1 with h3 | h3
        · revert h3; decide
        · exact h3.2 rfl

/-- Claim C7: for every input containing a script block, the sanitized
output contains no `<script` substring in any letter case (its ASCII
lower-casing has no `<script` infix). -/
theorem C7_no_script_in_output (s : List Char)
    (h : containsScriptBlock s = true) :
    ¬ chars "<script" <:+: (sanitize_input s).map asciiLower := by
  intro hinf
  have hlt : '<' ∈ (sanitize_input s).map asciiLower :=
    hinf.sublist.subset (by decide)
  rcases List.mem_map.mp hlt with ⟨c, hc, hlc⟩
  have hcl : c = '<' := asciiLower_eq_of_not_lower hlc (by decide)
  subst hcl
  exact not_lt_mem_sanitize s hc

/-- Claim C7, witness: a concrete string with a script block. -/
theorem C7_witness :
    containsScriptBlock (chars "<script>alert(1)</script>hello") = true
    ∧ ¬ chars "<script" <:+:
        (sanitize_input (chars "<script>alert(1)</script>hello")).map asciiLower :=
  ⟨by decide, C7_no_script_in_output (chars "<script>alert(1)</script>hello")
    (by decide)⟩

theorem dropWhile_eq_self_of_false {p : Char → Bool} {l : List Char}
    (h : ∀ c ∈ l, p c = false) : l.dropWhile p = l := by
  cases l with
  | nil => rfl
  | cons c cs => simp [List.dropWhile_cons, h c (List.mem_cons_self c cs)]

theorem pyStrip_eq_self {l : List Char} (h : ∀ c ∈ l, pyWs c = false) :
    pyStrip l = l := by
  unfold pyStrip
  rw [dropWhile_eq_self_of_false h,
    dropWhile_eq_self_of_false (fun c hc => h c (List.mem_reverse.mp hc)),
    List.reverse_reverse]

theorem replaceChar_eq_self {tgt : Char} {rep l : List Char} (h : tgt ∉ l) :
    replaceChar tgt rep l = l := by
  induction l with
  | nil => rfl
  | cons c cs ih =>
    have hct : c ≠ tgt := by
      intro hc
      exact h (by rw [← hc]; exact List.mem_cons_self c cs)
    unfold replaceChar
    rw [if_neg hct, ih (fun hc => h (List.mem_cons_of_mem c hc))]

theorem openTag_none_of_head {c : Char} {cs : List Char} (h : c ≠ '<') :
    openTag (c :: cs) = none := by
  simp [openTag, h]

theorem removeScriptBlocksGo_eq_self {l : List Char}
    (h : ∀ c ∈ l, c ≠ '<') : ∀ fuel, removeScriptBlocksGo fuel l = l := by
  induction l with
  | nil => intro fuel; cases fuel <;> rfl
  | cons c cs ih =>
    intro fuel
    cases fuel with
    | zero => rfl
    | succ fuel =>
      have hm : tryScriptMatch (c :: cs) = none := by
        unfold tryScriptMatch
        rw [openTag_none_of_head (h c (List.mem_cons_self c cs))]
      simp only [removeScriptBlocksGo, hm]
      rw [ih (fun d hd => h d (List.mem_cons_of_mem c hd)) fuel]

theorem removeJavascriptGo_eq_self {l : List Char}
    (h : ∀ c ∈ l, asciiLower c ≠ ':') : ∀ fuel, removeJavascriptGo fuel l = l := by
  induction l with
  | nil => intro fuel; cases fuel <;> rfl
  | cons c cs ih =>
    intro fuel
    cases fuel with
    | zero => rfl
    | succ fuel =>
      have hm : ciPrefixDrop (chars "javascript:") (c :: cs) = none := by
        cases hmm : ciPrefixDrop (chars "javascript:") (c :: cs) with
        | none => rfl
        | some rest =>
          obtain ⟨d, hd, hdl⟩ := ciPrefixDrop_mem hmm ':' (by decide)
          rw [show asciiLower ':' = ':' from by decide] at hdl
          exact absurd hdl (h d hd)
      simp only [removeJavascriptGo, hm]
      rw [ih (fun d hd => h d (List.mem_cons_of_mem c hd)) fuel]

theorem removeOnAttrGo_eq_self {l : List Char}
    (h : ∀ c ∈ l, c ≠ '=') : ∀ fuel, removeOnAttrGo fuel l = l := by
  induction l with
  | nil => intro fuel; cases fuel <;> rfl
  | cons c cs ih =>
    intro fuel
    cases fuel with
    | zero => rfl
    | succ fuel =>
      have hm : onAttrMatch (c :: cs) = none := by
        cases hmm : onAttrMatch (c :: cs) with
        | none => rfl
        | some rest =>
          exact absurd rfl (h '=' (onAttrMatch_suffix hmm).2.2)
      simp only [removeOnAttrGo, hm]
      rw [ih (fun d hd => h d (List.mem_cons_of_mem c hd)) fuel]

theorem alnum_forbidden {l : List Char} (h : ∀ c ∈ l, c.isAlphanum = true)
    {t : Char} (ht : t.isAlphanum = false) : t ∉ l := by
  intro hmem
  rw [h t hmem] at ht
  simp at ht

theorem ne_of_alnum {l : List Char} (h : ∀ c ∈ l, c.isAlphanum = true)
    {t : Char} (ht : t.isAlphanum = false) : ∀ c ∈ l, c ≠ t :=
  fun _ hc he => alnum_forbidden h ht (he ▸ hc)

theorem pyWs_eq_false_of_alnum {c : Char} (h : c.isAlphanum = true) :
    pyWs c = false := by
  by_contra hne
  rw [Bool.not_eq_false] at hne
  unfold pyWs at hne
  simp only [Bool.or_eq_true, beq_iff_eq] at hne
  rcases hne with ((((hc | hc) | hc) | hc) | hc) | hc <;> subst hc <;> simp at h

/-- On text made only of alphanumeric characters, every stage of the
sanitizer is the identity. -/
theorem sanitize_input_eq_self_of_alnum {l : List Char}
    (h : ∀ c ∈ l, c.isAlphanum = true) : sanitize_input l = l := by
  unfold sanitize_input
  by_cases hl : l.isEmpty
  · cases l with
    | nil => rfl
    | cons c cs => simp at hl
  · rw [if_neg hl]
    rw [show removeScriptBlocks l = l from
      removeScriptBlocksGo_eq_self (ne_of_alnum h (by decide)) _]
    rw [show removeJavascript l = l from
      removeJavascriptGo_eq_self (fun c hc he => by
        have hcq : c = ':' := asciiLower_eq_of_not_lower he (by decide)
        exact alnum_forbidden h (t := ':') (by decide) (hcq ▸ hc)) _]
    rw [show removeOnAttr l = l from
      removeOnAttrGo_eq_self (ne_of_alnum h (by decide)) _]
    rw [replaceChar_eq_self (alnum_forbidden h (by decide)),
      replaceChar_eq_self (alnum_forbidden h (by decide)),
      replaceChar_eq_self (alnum_forbidden h (by decide)),
      replaceChar_eq_self (alnum_forbidden h (by decide)),
      pyStrip_eq_self (fun c hc => pyWs_eq_false_of_alnum (h c hc))]

/-- Claim C8: the sanitizer is idempotent on plain alphanumeric input:
sanitizing twice equals sanitizing once (indeed the sanitizer fixes such
input). -/
theorem C8_sanitize_idempotent (x : List Char)
    (h : ∀ c ∈ x, c.isAlphanum = true) :
    sanitize_input (sanitize_input x) = sanitize_input x := by
  rw [sanitize_input_eq_self_of_alnum h, sanitize_input_eq_self_of_alnum h]

/-- Claim C8, witness: a concrete alphanumeric string. -/
theorem C8_witness :
    sanitize_input (sanitize_input (chars "abc123"))
      = sanitize_input (chars "abc123") :=
  C8_sanitize_idempotent (chars "abc123") (by decide)

/-- The normalised form the email validator works on: sanitized, stripped,
lower-cased (`sanitize_input(email).strip().lower()`). -/
def normE (s : List Char) : List Char :=
  (pyStrip (sanitize_input s)).map asciiLower

/-- Whether the string contains an `@` with a `.` somewhere after it:
the part after the first `@` contains a dot.  (A dot after any `@` is also
after the first one, so this captures "an `@` with a `.` after it".) -/
def hasAtDotB (l : List Char) : Bool :=
  ((l.dropWhile (fun c => !(c == '@'))).drop 1).contains '.'

theorem contains_iff {a : Char} {l : List Char} :
    l.contains a = true ↔ a ∈ l := by
  simp [List.contains]

theorem dropWhile_head_false {p : Char → Bool} :
    ∀ {l : List Char} {c : Char} {cs : List Char},
      l.dropWhile p = c :: cs → p c = false := by
  intro l
  induction l with
  | nil => intro c cs h; simp at h
  | cons a as ih =>
    intro c cs h
    rw [List.dropWhile_cons] at h
    by_cases hp : p a
    · rw [if_pos hp] at h
      exact ih h
    · rw [if_neg hp] at h
      cases h
      exact Bool.eq_false_iff.mpr hp

theorem hasAtDotB_cons (c : Char) (cs : List Char) :
    hasAtDotB (c :: cs) = if c = '@' then cs.contains '.' else hasAtDotB cs := by
  unfold hasAtDotB
  by_cases hc : c = '@'
  · subst hc
    rw [if_pos rfl, List.dropWhile_cons]
    simp
  · rw [if_neg hc, List.dropWhile_cons]
    simp [hc]

theorem hasAtDotB_of_decomp : ∀ (l1 : List Char) {l l2 : List Char},
    l = l1 ++ '@' :: l2 → '.' ∈ l2 → hasAtDotB l = true := by
  intro l1
  induction l1 with
  | nil =>
    intro l l2 hl hd
    subst hl
    rw [List.nil_append, hasAtDotB_cons, if_pos rfl]
    exact contains_iff.mpr hd
  | cons c l1 ih =>
    intro l l2 hl hd
    subst hl
    rw [List.cons_append, hasAtDotB_cons]
    by_cases hc : c = '@'
    · rw [if_pos hc]
      exact contains_iff.mpr
        (List.mem_append.mpr (Or.inr (List.mem_cons_of_mem _ hd)))
    · rw [if_neg hc]
      exact ih rfl hd

theorem decomp_of_hasAtDotB {l : List Char} (h : hasAtDotB l = true) :
    ∃ l1 l2, l = l1 ++ '@' :: l2 ∧ '.' ∈ l2 := by
  unfold hasAtDotB at h
  cases hd : l.dropWhile (fun c => !(c == '@')) with
  | nil => rw [hd] at h; simp at h
  | cons c rest =>
    rw [hd] at h
    have hc : (!(c == '@')) = false := dropWhile_head_false hd
    have hc2 : c = '@' := by simpa using hc
    subst hc2
    refine ⟨l.takeWhile (fun c => !(c == '@')), rest, ?_, ?_⟩
    · conv_lhs => rw [← List.takeWhile_append_dropWhile (fun c => !(c == '@')) l]
      rw [hd]
    · simp only [List.drop_succ_cons, List.drop_zero] at h
      exact contains_iff.mp h

theorem decomp_of_sublist : ∀ {l L : List Char}, List.Sublist l L →
    ∀ l1 l2, l = l1 ++ '@' :: l2 → '.' ∈ l2 →
    ∃ L1 L2, L = L1 ++ '@' :: L2 ∧ '.' ∈ L2 := by
  intro l L hs
  induction hs with
  | slnil =>
    intro l1 l2 heq _
    exact absurd heq (by simp)
  | cons a _ ih =>
    intro l1 l2 heq hd
    obtain ⟨L1, L2, hL, hdd⟩ := ih l1 l2 heq hd
    exact ⟨a :: L1, L2, by rw [hL, List.cons_append], hdd⟩
  | cons₂ a hsub ih =>
    intro l1 l2 heq hd
    cases l1 with
    | nil =>
      rw [List.nil_append] at heq
      injection heq with ha htail
      subst ha
      subst htail
      exact ⟨[], _, rfl, hsub.subset hd⟩
    | cons b l1 =>
      rw [List.cons_append] at heq
      injection heq with ha htail
      obtain ⟨L1, L2, hL, hdd⟩ := ih l1 l2 htail hd
      exact ⟨a :: L1, L2, by rw [hL, List.cons_append], hdd⟩

theorem hasAtDotB_of_sublist {l L : List Char} (hs : List.Sublist l L)
    (h : hasAtDotB l = true) : hasAtDotB L = true := by
  obtain ⟨l1, l2, heq, hd⟩ := decomp_of_hasAtDotB h
  obtain ⟨L1, L2, hL, hdd⟩ := decomp_of_sublist hs l1 l2 heq hd
  exact hasAtDotB_of_decomp L1 hL hdd

theorem hasAtDotB_append_no_at {xs ys : List Char} (h : ∀ c ∈ xs, c ≠ '@') :
    hasAtDotB (xs ++ ys) = hasAtDotB ys := by
  induction xs with
  | nil => rfl
  | cons c cs ih =>
    rw [List.cons_append, hasAtDotB_cons, if_neg (h c (List.mem_cons_self c cs))]
    exact ih (fun d hd => h d (List.mem_cons_of_mem c hd))

theorem hasAtDotB_replaceChar {tgt : Char} {rep l : List Char}
    (ht : tgt ≠ '@') (h1 : '@' ∉ rep) (h2 : '.' ∉ rep)
    (h : hasAtDotB (replaceChar tgt rep l) = true) : hasAtDotB l = true := by
  induction l with
  | nil => simp [replaceChar, hasAtDotB] at h
  | cons c cs ih =>
    unfold replaceChar at h
    by_cases hc : c = tgt
    · rw [if_pos hc,
        hasAtDotB_append_no_at (fun x hx he => h1 (he ▸ hx))] at h
      rw [hasAtDotB_cons, if_neg (by rw [hc]; exact ht)]
      exact ih h
    · rw [if_neg hc, hasAtDotB_cons] at h
      rw [hasAtDotB_cons]
      by_cases hat : c = '@'
      · rw [if_pos hat] at h ⊢
        rcases mem_replaceChar (contains_iff.mp h) with hmm | hmm
        · exact absurd hmm h2
        · exact contains_iff.mpr hmm.1
      · rw [if_neg hat] at h ⊢
        exact ih h

theorem hasAtDotB_map_asciiLower {l : List Char}
    (h : hasAtDotB (l.map asciiLower) = true) : hasAtDotB l = true := by
  induction l with
  | nil => simp [hasAtDotB] at h
  | cons c cs ih =>
    rw [List.map_cons, hasAtDotB_cons] at h
    rw [hasAtDotB_cons]
    by_cases hat : asciiLower c = '@'
    · have hc : c = '@' := asciiLower_eq_of_not_lower hat (by decide)
      rw [if_pos hat] at h
      rw [if_pos hc]
      rcases List.mem_map.mp (contains_iff.mp h) with ⟨d, hd, hdl⟩
      have hdq : d = '.' := asciiLower_eq_of_not_lower hdl (by decide)
      exact contains_iff.mpr (hdq ▸ hd)
    · rw [if_neg hat] at h
      have hc : c ≠ '@' := by
        intro hceq
        rw [hceq] at hat
        exact hat (by decide)
      rw [if_neg hc]
      exact ih h

theorem removeScriptBlocksGo_sublist : ∀ (fuel : Nat) (l : List Char),
    List.Sublist (removeScriptBlocksGo fuel l) l := by
  intro fuel
  induction fuel with
  | zero =>
    intro l
    cases l with
    | nil => simp [removeScriptBlocksGo]
    | cons c cs => simp [removeScriptBlocksGo]
  | succ fuel ih =>
    intro l
    cases l with
    | nil => simp [removeScriptBlocksGo]
    | cons c cs =>
      cases hm : tryScriptMatch (c :: cs) with
      | some rest =>
        have he : removeScriptBlocksGo (fuel + 1) (c :: cs)
            = removeScriptBlocksGo fuel rest := by
          simp [removeScriptBlocksGo, hm]
        rw [he]
        exact (ih rest).trans (tryScriptMatch_suffix hm).1.sublist
      | none =>
        have he : removeScriptBlocksGo (fuel + 1) (c :: cs)
            = c :: removeScriptBlocksGo fuel cs := by
          simp [removeScriptBlocksGo, hm]
        rw [he]
        exact (ih cs).cons₂ c

theorem removeJavascriptGo_sublist : ∀ (fuel : Nat) (l : List Char),
    List.Sublist (removeJavascriptGo fuel l) l := by
  intro fuel
  induction fuel with
  | zero =>
    intro l
    cases l with
    | nil => simp [removeJavascriptGo]
    | cons c cs => simp [removeJavascriptGo]
  | succ fuel ih =>
    intro l
    cases l with
    | nil => simp [removeJavascriptGo]
    | cons c cs =>
      cases hm : ciPrefixDrop (chars "javascript:") (c :: cs) with
      | some rest =>
        have he : removeJavascriptGo (fuel + 1) (c :: cs)
            = removeJavascriptGo fuel rest := by
          simp [removeJavascriptGo, hm]
        rw [he]
        exact (ih rest).trans (ciPrefixDrop_suffix hm).sublist
      | none =>
        have he : removeJavascriptGo (fuel + 1) (c :: cs)
            = c :: removeJavascriptGo fuel cs := by
          simp [removeJavascriptGo, hm]
        rw [he]
        exact (ih cs).cons₂ c

theorem removeOnAttrGo_sublist : ∀ (fuel : Nat) (l : List Char),
    List.Sublist (removeOnAttrGo fuel l) l := by
  intro fuel
  induction fuel with
  | zero =>
    intro l
    cases l with
    | nil => simp [removeOnAttrGo]
    | cons c cs => simp [removeOnAttrGo]
  | succ fuel ih =>
    intro l
    cases l with
    | nil => simp [removeOnAttrGo]
    | cons c cs =>
      cases hm : onAttrMatch (c :: cs) with
      | some rest =>
        have he : removeOnAttrGo (fuel + 1) (c :: cs)
            = removeOnAttrGo fuel rest := by
          simp [removeOnAttrGo, hm]
        rw [he]
        exact (ih rest).trans (onAttrMatch_suffix hm).1.sublist
      | none =>
        have he : removeOnAttrGo (fuel + 1) (c :: cs)
            = c :: removeOnAttrGo fuel cs := by
          simp [removeOnAttrGo, hm]
        rw [he]
        exact (ih cs).cons₂ c

theorem pyStrip_sublist (l : List Char) : List.Sublist (pyStrip l) l := by
  unfold pyStrip
  have h1 : List.IsSuffix ((l.dropWhile pyWs).reverse.dropWhile pyWs)
      (l.dropWhile pyWs).reverse := List.dropWhile_suffix pyWs
  have h2 := List.reverse_prefix.mpr h1
  rw [List.reverse_reverse] at h2
  exact h2.sublist.trans (List.dropWhile_suffix pyWs).sublist

theorem emailRegexMatch_hasAtDot {e : List Char}
    (h : emailRegexMatch e = true) : hasAtDotB e = true := by
  unfold emailRegexMatch at h
  cases hd : e.dropWhile classOkEmail with
  | nil => rw [hd] at h; simp at h
  | cons c r =>
    rw [hd] at h
    simp only [Bool.and_eq_true, beq_iff_eq] at h
    obtain ⟨⟨⟨hc, _⟩, _⟩, hdot⟩ := h
    subst hc
    have hsplit : e = e.takeWhile classOkEmail ++ '@' :: r := by
      conv_lhs => rw [← List.takeWhile_append_dropWhile classOkEmail e]
      rw [hd]
    have hdm : '.' ∈ r := by
      unfold hasInteriorDot at hdot
      exact (List.drop_sublist 1 r).subset
        ((List.dropLast_sublist _).subset (contains_iff.mp hdot))
    exact hasAtDotB_of_decomp (e.takeWhile classOkEmail) hsplit hdm

/-- A string accepted by the email validator has an `@` with a `.` after it
already in its raw form: each sanitizer stage only deletes characters or
inserts entity strings free of `@` and `.`, so the `@`-then-`.` pattern of
the normalised string descends from the raw input. -/
theorem valid_email_hasAtDot {s : List Char} (h : is_valid_email s = true) :
    hasAtDotB s = true := by
  by_cases hs : s.isEmpty
  · cases s with
    | nil => revert h; decide
    | cons c cs => simp at hs
  · have hm : emailRegexMatch ((pyStrip (sanitize_input s)).map asciiLower)
        = true := by
      by_contra hmn
      rw [Bool.not_eq_true] at hmn
      simp only [is_valid_email] at h
      rw [hmn] at h
      simp at h
    have h2 := hasAtDotB_map_asciiLower (emailRegexMatch_hasAtDot hm)
    have h3 := hasAtDotB_of_sublist (pyStrip_sublist _) h2
    unfold sanitize_input at h3
    rw [if_neg hs] at h3
    have h4 := hasAtDotB_of_sublist (pyStrip_sublist _) h3
    have h5 := hasAtDotB_replaceChar (by decide) (by decide) (by decide) h4
    have h6 := hasAtDotB_replaceChar (by decide) (by decide) (by decide) h5
    have h7 := hasAtDotB_replaceChar (by decide) (by decide) (by decide) h6
    have h8 := hasAtDotB_replaceChar (by decide) (by decide) (by decide) h7
    unfold removeOnAttr removeJavascript removeScriptBlocks at h8
    have h9 := hasAtDotB_of_sublist (removeOnAttrGo_sublist _ _) h8
    have h10 := hasAtDotB_of_sublist (removeJavascriptGo_sublist _ _) h9
    exact hasAtDotB_of_sublist (removeScriptBlocksGo_sublist _ _) h10

set_option maxRecDepth 20000 in
/-- Claim C6: `is_valid_email` accepts exactly the strings whose
sanitized-trimmed-lower-cased form matches the email pattern, has total
length at most 254, local part (before the first `@`) at most 64, and
contains neither `&lt;` nor `&gt;`; it rejects any string lacking an `@`
with a `.` after it, accepts "john@example.com", rejects a local part of
length 65 with a valid domain, and rejects total length 255. -/
theorem C6_is_valid_email_spec :
    (∀ s : List Char, is_valid_email s = true ↔
      (emailRegexMatch (normE s) = true ∧ (normE s).length ≤ 254
        ∧ ((normE s).takeWhile (fun c => !(c == '@'))).length ≤ 64
        ∧ ¬ chars "&lt;" <:+: normE s ∧ ¬ chars "&gt;" <:+: normE s))
    ∧ (∀ s : List Char, hasAtDotB s = false → is_valid_email s = false)
    ∧ is_valid_email (chars "john@example.com") = true
    ∧ is_valid_email (List.replicate 65 'a' ++ chars "@example.com") = false
    ∧ is_valid_email (List.replicate 64 'a' ++ chars "@"
        ++ List.replicate 186 'b' ++ chars ".com") = false := by
  refine ⟨?_, ?_, by decide, by decide, by decide⟩
  · intro s
    simp only [is_valid_email, normE]
    split_ifs with h1 h2 h3 h4
    · simp_all
    · simp_all [Nat.not_lt]
    · simp_all [Nat.not_lt]
    · simp_all
      exact fun hn => h4.resolve_left hn
    · simp_all [Nat.not_lt]
  · intro s hs
    by_contra hv
    rw [Bool.not_eq_false] at hv
    rw [valid_email_hasAtDot hv] at hs
    simp at hs

/-- Claim C6, witness: a string without an `@` followed by a dot is
rejected. -/
theorem C6_witness :
    hasAtDotB (chars "johnexample.com") = false
    ∧ is_valid_email (chars "johnexample.com") = false :=
  ⟨by decide, C6_is_valid_email_spec.2.1 (chars "johnexample.com") (by decide)⟩
